import Mathlib

/-!
Shallow embedding of `src/japanese/helpers/file_ops.py`.

Modelling conventions:
* A filesystem path is a list of name components, rooted at `[]` (the
  filesystem root `/`).  `pathlib.Path.parent` is `List.dropLast`; the
  parent of the root is the root itself, and `Path.samefile` between a
  path and its parent is modelled as structural equality (paths are
  canonical: no symlinks or inode identity in the model).
* The filesystem state `FS` records which paths are directories and, for
  regular files, their size and modification time.  Errors that depend on
  data outside this state (permissions, disk full) are not modelled;
  errors expressible in the state (missing parent, path is a directory,
  missing file) are.
* `os.environ` is an association list `Env`; Python truthiness of an
  optional string (`None` and the empty string are falsy) is `truthy`.
* Process-wide data (`sys.platform`, `pathlib.Path.home()`, the module
  location `__file__`) is a `Config` record, so platform branches can be
  exercised by instantiation.
* Functions with side effects take and return `FS`; fallible ones return
  `Except String`.
-/

abbrev FPath := List String

namespace PyPath

/-- `pathlib.Path.parent`: drop the last component; the parent of the
root is the root itself. -/
def parent (p : FPath) : FPath := p.dropLast

/-- Split a character list at every occurrence of the separator `/`. -/
def splitSlash : List Char → List (List Char)
  | [] => [[]]
  | c :: cs =>
    if c == '/' then [] :: splitSlash cs
    else
      match splitSlash cs with
      | [] => [[c]]
      | w :: ws => (c :: w) :: ws

/-- `pathlib.Path(s)` for a canonical absolute string: split on the
separator, dropping empty components. -/
def parsePath (s : String) : FPath :=
  ((splitSlash s.data).map (fun cs => String.mk cs)).filter (fun c => !(c == ""))

/-- `str.startswith`, computed on the underlying character lists. -/
def strStartsWith (s pre : String) : Bool := pre.data.isPrefixOf s.data

/-- `str(path)` for an absolute path. -/
def pathToString (p : FPath) : String := "/" ++ String.intercalate "/" p

end PyPath

/-- Metadata kept for a regular file: its byte size and its modification
time (`st_size` and `st_mtime`). -/
structure FileInfo where
  size : Nat
  mtime : Nat
deriving DecidableEq, Repr

/-- The filesystem state: the set of directory paths and an association
list from regular-file paths to their metadata. -/
structure FS where
  dirs : List FPath
  files : List (FPath × FileInfo)
deriving DecidableEq, Repr

namespace FS

/-- `Path.is_dir()` / `os.path.isdir`. -/
def isDir (fs : FS) (p : FPath) : Bool := fs.dirs.contains p

/-- `os.stat` metadata of a regular file, when one exists at `p`. -/
def getFile (fs : FS) (p : FPath) : Option FileInfo :=
  (fs.files.find? (fun kv => kv.1 == p)).map (fun kv => kv.2)

/-- `Path.is_file()` / `os.path.isfile`. -/
def isFile (fs : FS) (p : FPath) : Bool := (fs.getFile p).isSome

/-- Create or overwrite the metadata record of the regular file at `p`. -/
def setFile (fs : FS) (p : FPath) (info : FileInfo) : FS :=
  { fs with files := (p, info) :: fs.files.filter (fun kv => !(kv.1 == p)) }

/-- Remove the regular file at `p` from the state. -/
def removeFile (fs : FS) (p : FPath) : FS :=
  { fs with files := fs.files.filter (fun kv => !(kv.1 == p)) }

/-- `Path.mkdir(parents=True, exist_ok=True)`: record `p` and every
ancestor of `p` as directories. -/
def mkdirParents (fs : FS) (p : FPath) : FS :=
  { fs with dirs := (List.range (p.length + 1)).map (fun n => p.take n) ++ fs.dirs }

end FS

namespace FileOps

/-- Recursion kernel of `ancestors`, with the path length as structural
fuel (taking the parent shortens the path by one component, so the fuel
never runs out on the paths it is called with). -/
def ancestorsAux : Nat → FPath → List FPath
  | 0, _ => []
  | _ + 1, [] => []
  | n + 1, p@(_ :: _) => PyPath.parent p :: ancestorsAux n (PyPath.parent p)

/-- The ancestor chain produced by the `while` loop of `walk_parents`:
starting from `p`, repeatedly take the parent until reaching a path that
is its own parent (the root), yielding each parent. -/
def ancestors (p : FPath) : List FPath := ancestorsAux p.length p

/-- `walk_parents(dir_or_file_path)`: yield the starting path itself when
it is a directory, then every successive parent up to and including the
root. -/
def walk_parents (fs : FS) (dir_or_file_path : FPath) : List FPath :=
  (if fs.isDir dir_or_file_path then [dir_or_file_path] else []) ++ ancestors dir_or_file_path

/-- `touch(path)`: `open(path, "a")` followed by `os.utime(path, None)`.
Opening for append fails when `path` is a directory, succeeds on an
existing regular file (content untouched, `mtime` set to `now`), creates
an empty file when `path` is absent and its parent directory exists, and
fails when the parent directory is missing. -/
def touch (fs : FS) (now : Nat) (path : FPath) : Except String FS :=
  if fs.isDir path then
    Except.error "IsADirectoryError"
  else
    match fs.getFile path with
    | some info => Except.ok (fs.setFile path { info with mtime := now })
    | none =>
      if fs.isDir (PyPath.parent path) then
        Except.ok (fs.setFile path { size := 0, mtime := now })
      else
        Except.error "FileNotFoundError"

/-- `rm_file(path)`: `os.unlink` with `FileNotFoundError` suppressed.
Unlinking a directory raises an error that is not `FileNotFoundError`,
so it propagates; a missing path is success; a regular file is removed. -/
def rm_file (fs : FS) (path : FPath) : Except String FS :=
  if fs.isFile path then
    Except.ok (fs.removeFile path)
  else if fs.isDir path then
    Except.error "IsADirectoryError"
  else
    Except.ok fs

/-- `find_file_in_parents(file_name)`: walk the ancestors of the module
file, return the first `parent_dir / file_name` that is a regular file,
and raise `RuntimeError` when none is. -/
def find_file_in_parents (fs : FS) (module_file : FPath) (file_name : String) :
    Except String FPath :=
  match (walk_parents fs module_file).find?
      (fun parent_dir => fs.isFile (parent_dir ++ [file_name])) with
  | some parent_dir => Except.ok (parent_dir ++ [file_name])
  | none => Except.error "RuntimeError"

/-- `file_exists(file_path)`:
`bool(file_path and os.path.isfile(file_path) and os.stat(file_path).st_size > 0)`. -/
def file_exists (fs : FS) (file_path : String) : Bool :=
  !(file_path == "") && fs.isFile (PyPath.parsePath file_path) &&
    (match fs.getFile (PyPath.parsePath file_path) with
     | some info => decide (0 < info.size)
     | none => false)

end FileOps

/-- `os.environ`: a finite map from variable names to string values,
as an association list (first binding wins). -/
structure Env where
  vars : List (String × String)
deriving DecidableEq, Repr

namespace Env

/-- `os.environ.get(k)` / `os.getenv(k)`: `some v` when the variable is
set (possibly to the empty string), `none` when unset. -/
def get (e : Env) (k : String) : Option String :=
  (e.vars.find? (fun kv => kv.1 == k)).map (fun kv => kv.2)

/-- `os.environ.get(k, d)`: lookup with a default. -/
def getD (e : Env) (k : String) (d : String) : String := (e.get k).getD d

end Env

/-- Python truthiness of an optional string: `None` and `""` are falsy,
every other string is truthy.  `truthy o` is `some s` exactly when the
value is a truthy string `s`. -/
def truthy (o : Option String) : Option String :=
  match o with
  | some s => if s == "" then none else some s
  | none => none

/-- Python `a or b` on an optional string `a` and a string `b`: `a` when
truthy, else `b`. -/
def pyOr (a : Option String) (b : String) : String :=
  match truthy a with
  | some s => s
  | none => b

/-- Process-wide ambient data consumed by the module: the environment,
`sys.platform`, the home directory `pathlib.Path.home()`, and the
location of the module file itself (`__file__`). -/
structure Config where
  env : Env
  sys_platform : String
  home : FPath
  module_file : FPath
deriving DecidableEq, Repr

/-- `__name__` of the module, `japanese.helpers.file_ops`. -/
def MODULE_NAME : String := "japanese.helpers.file_ops"

/-- `THIS_ADDON_MODULE = __name__.split(".")[0]`: the characters of the
module name before the first dot. -/
def THIS_ADDON_MODULE : String :=
  String.mk (MODULE_NAME.data.takeWhile (fun c => !(c == '.')))

/-- `pathlib.Path(s).expanduser()`: a leading `~` component is replaced
by the home directory; a `~user` component naming another user is left
as written (as when the lookup of that user fails). -/
def expanduser (cfg : Config) (s : String) : FPath :=
  if s == "~" then cfg.home
  else if PyPath.strStartsWith s "~/" then cfg.home ++ PyPath.parsePath (s.drop 2)
  else PyPath.parsePath s

namespace FileOps

/-- `_platform_data_home(app_name)`: the platform-specific per-user data
directory, before creation. -/
def _platform_data_home (cfg : Config) (app_name : String) : FPath :=
  if PyPath.strStartsWith cfg.sys_platform "linux" then
    let base := pyOr (cfg.env.get "XDG_STATE_HOME")
      (pyOr (cfg.env.get "XDG_DATA_HOME")
        (PyPath.pathToString (cfg.home ++ [".local", "share"])))
    PyPath.parsePath base ++ ["anki-addons", app_name]
  else if cfg.sys_platform == "darwin" then
    cfg.home ++ ["Library", "Application Support", "Anki", "Addons", app_name]
  else
    let base := cfg.env.getD "APPDATA"
      (PyPath.pathToString (cfg.home ++ ["AppData", "Roaming"]))
    PyPath.parsePath base ++ ["Anki", "Addons", app_name]

/-- The body of `user_files_dir()` (the computation performed on a cache
miss): explicit `AJT_USER_FILES_DIR` override first, then the created
platform default, then the opt-in `AJT_USE_REPO_USER_FILES=1` legacy
search for an ancestor-level `user_files` directory. -/
def user_files_dir_impl (cfg : Config) (fs : FS) : FPath × FS :=
  match truthy (cfg.env.get "AJT_USER_FILES_DIR") with
  | some override =>
    let p := expanduser cfg override
    (p, fs.mkdirParents p)
  | none =>
    let p := _platform_data_home cfg THIS_ADDON_MODULE
    let fs1 := fs.mkdirParents p
    if cfg.env.get "AJT_USE_REPO_USER_FILES" == some "1" then
      match (walk_parents fs1 cfg.module_file).find?
          (fun parent_dir => fs1.isDir (parent_dir ++ ["user_files"])) with
      | some parent_dir => (parent_dir ++ ["user_files"], fs1)
      | none => (p, fs1)
    else
      (p, fs1)

/-- The outcome of one call to the memoized `user_files_dir()`: the
returned path, the filesystem afterwards, and the `functools.cache`
cell afterwards. -/
structure CallResult where
  path : FPath
  fs : FS
  cache : Option FPath
deriving DecidableEq, Repr

/-- One call to `user_files_dir()` under `@functools.cache`: on a hit
the cached path is returned with no recomputation and no filesystem
effect; on a miss the body runs and its result is stored. -/
def user_files_dir_call (cache : Option FPath) (cfg : Config) (fs : FS) : CallResult :=
  match cache with
  | some p => { path := p, fs := fs, cache := some p }
  | none =>
    let r := user_files_dir_impl cfg fs
    { path := r.1, fs := r.2, cache := some r.1 }

/-- The externally visible effect chosen by `open_file`: either a
`subprocess.Popen(argv, shell=..., start_new_session=...)`, or the Qt
`QDesktopServices.openUrl` fallback performed inside the
`no_bundled_libs()` scope. -/
inductive OpenAction where
  | popen (argv : List String) (shell : Bool) (start_new_session : Bool)
  | qdesktopOpenUrlNoBundledLibs (path : String)
deriving DecidableEq, Repr

/-- `open_file(path)`.  `find_executable` stands for the external
executable-discovery collaborator (`None` when not found). -/
def open_file (env : Env) (find_executable : String → Option String)
    (path : String) : OpenAction :=
  match truthy (env.get "TERMINAL"),
      truthy (match truthy (env.get "FILE") with
              | some f => some f
              | none => find_executable "lf") with
  | some terminal, some lf =>
    OpenAction.popen [terminal, "-e", lf, path] false true
  | _, _ =>
    match truthy (find_executable "xdg-open") with
    | some opener => OpenAction.popen [opener, "file://" ++ path] false true
    | none => OpenAction.qdesktopOpenUrlNoBundledLibs path

end FileOps

namespace FileOps

lemma ancestors_nil : ancestors [] = [] := rfl

lemma parent_length (x : String) (xs : List String) :
    (PyPath.parent (x :: xs)).length = xs.length := by
  simp [PyPath.parent, List.length_dropLast]

lemma ancestors_cons (x : String) (xs : List String) :
    ancestors (x :: xs) = PyPath.parent (x :: xs) :: ancestors (PyPath.parent (x :: xs)) := by
  show ancestorsAux (xs.length + 1) (x :: xs) = _
  rw [ancestorsAux, ancestors, parent_length]

/-- Induction along the parent chain: a property holding at the root and
propagating from the parent of every nonempty path to the path itself
holds everywhere. -/
lemma ancestors_induction (motive : FPath → Prop) (h0 : motive [])
    (hstep : ∀ x xs, motive (PyPath.parent (x :: xs)) → motive (x :: xs)) :
    ∀ p, motive p := by
  suffices h : ∀ n (q : FPath), q.length = n → motive q by
    intro p
    exact h p.length p rfl
  intro n
  induction n with
  | zero =>
    intro q hq
    rw [List.length_eq_zero] at hq
    rw [hq]
    exact h0
  | succ n ih =>
    intro q hq
    cases q with
    | nil => simp at hq
    | cons x xs =>
      refine hstep x xs (ih _ ?_)
      rw [parent_length]
      simpa using hq

lemma parent_length_lt (x : String) (xs : List String) :
    (PyPath.parent (x :: xs)).length < (x :: xs).length := by
  simp [PyPath.parent, List.length_dropLast]

lemma length_lt_of_mem_ancestors (p : FPath) : ∀ q ∈ ancestors p, q.length < p.length := by
  induction p using ancestors_induction with
  | h0 => simp [ancestors_nil]
  | hstep x xs ih =>
    intro q hq
    rw [ancestors_cons] at hq
    rcases List.mem_cons.mp hq with h | h
    · exact h ▸ parent_length_lt x xs
    · exact lt_trans (ih q h) (parent_length_lt x xs)

lemma ancestors_head (p : FPath) : p ≠ [] → (ancestors p).head? = some (PyPath.parent p) := by
  cases p with
  | nil => intro h; exact absurd rfl h
  | cons x xs => intro _; rw [ancestors_cons]; rfl

lemma ancestors_chain (p : FPath) :
    List.Chain' (fun a b => b = PyPath.parent a) (ancestors p) := by
  induction p using ancestors_induction with
  | h0 => rw [ancestors_nil]; exact List.chain'_nil
  | hstep x xs ih =>
    rw [ancestors_cons, List.chain'_cons']
    refine ⟨?_, ih⟩
    intro y hy
    rcases hpar : PyPath.parent (x :: xs) with _ | ⟨a, as⟩
    · rw [hpar, ancestors_nil] at hy
      simp at hy
    · rw [hpar, ancestors_head (a :: as) (List.cons_ne_nil a as)] at hy
      simp only [Option.mem_def, Option.some.injEq] at hy
      rw [← hy]

lemma ancestors_pairwise (p : FPath) :
    (ancestors p).Pairwise (fun a b => b.length < a.length) := by
  induction p using ancestors_induction with
  | h0 => rw [ancestors_nil]; exact List.Pairwise.nil
  | hstep x xs ih =>
    rw [ancestors_cons, List.pairwise_cons]
    exact ⟨fun q hq => length_lt_of_mem_ancestors _ q hq, ih⟩

lemma ancestors_getLast (p : FPath) : p ≠ [] → (ancestors p).getLast? = some ([] : FPath) := by
  induction p using ancestors_induction with
  | h0 => intro h; exact absurd rfl h
  | hstep x xs ih =>
    intro _
    rcases hpar : PyPath.parent (x :: xs) with _ | ⟨a, as⟩
    · rw [ancestors_cons, hpar, ancestors_nil]
      rfl
    · have h3 := ih (hpar ▸ List.cons_ne_nil a as)
      rw [hpar, ancestors_cons] at h3
      rw [ancestors_cons, hpar, ancestors_cons, List.getLast?_cons_cons]
      exact h3

lemma nodup_of_pairwise_length_lt {l : List FPath}
    (h : l.Pairwise (fun a b => b.length < a.length)) : l.Nodup := by
  refine h.imp ?_
  intro a b hlt heq
  rw [heq] at hlt
  exact lt_irrefl _ hlt

lemma find?_eq_some_of_decomp {α : Type} (p : α → Bool) (l1 l2 : List α) (a : α)
    (h1 : ∀ x ∈ l1, p x = false) (h2 : p a = true) :
    List.find? p (l1 ++ a :: l2) = some a := by
  induction l1 with
  | nil => simpa using List.find?_cons_of_pos _ h2
  | cons x xs ih =>
    rw [List.cons_append, List.find?_cons_of_neg]
    · exact ih (fun y hy => h1 y (List.mem_cons_of_mem x hy))
    · simp [h1 x (List.mem_cons_self x xs)]

lemma decomp_of_find?_eq_some {α : Type} (p : α → Bool) :
    ∀ (l : List α) (a : α), List.find? p l = some a →
      ∃ l1 l2, l = l1 ++ a :: l2 ∧ (∀ x ∈ l1, p x = false) ∧ p a = true := by
  intro l
  induction l with
  | nil => intro a h; simp [List.find?] at h
  | cons x xs ih =>
    intro a h
    by_cases hx : p x = true
    · rw [List.find?_cons_of_pos _ hx] at h
      injection h with h
      subst h
      exact ⟨[], xs, rfl, by simp, hx⟩
    · rw [List.find?_cons_of_neg _ hx] at h
      obtain ⟨l1, l2, hsplit, hfail, ha⟩ := ih a h
      refine ⟨x :: l1, l2, by rw [List.cons_append, hsplit], ?_, ha⟩
      intro y hy
      rcases List.mem_cons.mp hy with rfl | hy
      · simpa using hx
      · exact hfail y hy

lemma isDir_iff_mem (fs : FS) (p : FPath) : fs.isDir p = true ↔ p ∈ fs.dirs := by
  simp [FS.isDir, List.contains]

lemma mkdirParents_isDir_self (fs : FS) (p : FPath) : (fs.mkdirParents p).isDir p = true := by
  rw [isDir_iff_mem]
  refine List.mem_append_left _ ?_
  refine List.mem_map.mpr ⟨p.length, ?_, List.take_length p⟩
  exact List.mem_range.mpr (Nat.lt_succ_self _)

lemma getFile_setFile_self (fs : FS) (p : FPath) (i : FileInfo) :
    (fs.setFile p i).getFile p = some i := by
  simp only [FS.setFile, FS.getFile]
  rw [List.find?_cons_of_pos]
  · rfl
  · exact beq_self_eq_true p

lemma setFile_isDir (fs : FS) (p : FPath) (i : FileInfo) (q : FPath) :
    (fs.setFile p i).isDir q = fs.isDir q := rfl

lemma getFile_removeFile_self (fs : FS) (p : FPath) :
    (fs.removeFile p).getFile p = none := by
  have h : List.find? (fun kv => kv.1 == p)
      (List.filter (fun kv => !(kv.1 == p)) fs.files) = none := by
    rw [List.find?_eq_none]
    intro kv hkv
    have h2 := (List.mem_filter.mp hkv).2
    simp at h2
    simp [h2]
  simp [FS.removeFile, FS.getFile, h]

lemma removeFile_dirs (fs : FS) (p : FPath) : (fs.removeFile p).dirs = fs.dirs := rfl

lemma truthy_ne_empty (o : Option String) (s : String) (h : truthy o = some s) :
    (s == "") = false := by
  cases o with
  | none => exact absurd h (by simp [truthy])
  | some t =>
    have h2 : (t == "") = false := by
      by_contra hc
      have hc2 : (t == "") = true := by simpa using hc
      simp [truthy, hc2] at h
    have h3 : truthy (some t) = some t := by simp [truthy, h2]
    rw [h3] at h
    injection h with h
    subst h
    exact h2

lemma truthy_of_truthy (o : Option String) (s : String) (h : truthy o = some s) :
    truthy (some s) = some s := by
  simp [truthy, truthy_ne_empty o s h]

lemma truthy_some (s : String) (hsne : s ≠ "") : truthy (some s) = some s := by
  simp [truthy, hsne]

lemma pyOr_of_truthy_none (a : Option String) (b : String) (h : truthy a = none) :
    pyOr a b = b := by
  simp [pyOr, h]

lemma pyOr_of_truthy_some (a : Option String) (s : String) (b : String)
    (h : truthy a = some s) : pyOr a b = s := by
  simp [pyOr, h]

lemma head_ancestors_eq_parent (p : FPath) :
    ∀ y ∈ (ancestors p).head?, y = PyPath.parent p := by
  cases p with
  | nil => simp [ancestors_nil]
  | cons x xs =>
    intro y hy
    rw [ancestors_head (x :: xs) (List.cons_ne_nil x xs)] at hy
    simp only [Option.mem_def, Option.some.injEq] at hy
    exact hy.symm

lemma ancestors_ne_nil (p : FPath) (h : p ≠ []) : ancestors p ≠ [] := by
  cases p with
  | nil => exact absurd rfl h
  | cons x xs => rw [ancestors_cons]; exact List.cons_ne_nil _ _

lemma find_file_in_parents_eq_ok (fs : FS) (mf : FPath) (fn : String) (d : FPath)
    (h : List.find? (fun pd => fs.isFile (pd ++ [fn])) (walk_parents fs mf) = some d) :
    find_file_in_parents fs mf fn = Except.ok (d ++ [fn]) := by
  unfold find_file_in_parents
  rw [h]

lemma find_file_in_parents_eq_err (fs : FS) (mf : FPath) (fn : String)
    (h : List.find? (fun pd => fs.isFile (pd ++ [fn])) (walk_parents fs mf) = none) :
    find_file_in_parents fs mf fn = Except.error "RuntimeError" := by
  unfold find_file_in_parents
  rw [h]

end FileOps

namespace FileOps

/-- C5: `walk_parents` yields a finite, strictly shrinking sequence of
distinct ancestor paths: it begins with the argument itself exactly when
the argument is a directory (a non-directory contributes only its
ancestors), every later element is the parent of the element before it,
and, on a filesystem whose root is a directory, the sequence is nonempty
and its last element is its own parent (the root).  The function is pure
in the model, so a fresh call recomputes the same sequence. -/
theorem walk_parents_spec (fs : FS) (p : FPath) (hroot : fs.isDir [] = true) :
    ((walk_parents fs p).head? = some p ↔ fs.isDir p = true)
    ∧ List.Chain' (fun a b => b = PyPath.parent a) (walk_parents fs p)
    ∧ (walk_parents fs p).Pairwise (fun a b => b.length < a.length)
    ∧ (walk_parents fs p).Nodup
    ∧ walk_parents fs p ≠ []
    ∧ (∀ l, (walk_parents fs p).getLast? = some l → PyPath.parent l = l) := by
  by_cases hdir : fs.isDir p = true
  · have hw : walk_parents fs p = p :: ancestors p := by simp [walk_parents, hdir]
    rw [hw]
    have hpw : (p :: ancestors p).Pairwise (fun a b => b.length < a.length) :=
      List.pairwise_cons.mpr
        ⟨fun q hq => length_lt_of_mem_ancestors p q hq, ancestors_pairwise p⟩
    refine ⟨by simp [hdir], ?_, hpw, nodup_of_pairwise_length_lt hpw,
      List.cons_ne_nil _ _, ?_⟩
    · rw [List.chain'_cons']
      exact ⟨fun y hy => head_ancestors_eq_parent p y hy, ancestors_chain p⟩
    · intro l hl
      cases p with
      | nil =>
        rw [ancestors_nil] at hl
        simp at hl
        subst hl
        rfl
      | cons x xs =>
        rw [ancestors_cons, List.getLast?_cons_cons, ← ancestors_cons,
          ancestors_getLast _ (List.cons_ne_nil x xs)] at hl
        injection hl with hl
        subst hl
        rfl
  · have hdirf : fs.isDir p = false := Bool.eq_false_iff.mpr hdir
    have hpne : p ≠ [] := by
      intro h
      rw [h] at hdirf
      exact Bool.noConfusion (hroot.symm.trans hdirf)
    have hw : walk_parents fs p = ancestors p := by simp [walk_parents, hdirf]
    rw [hw]
    obtain ⟨x, xs, rfl⟩ : ∃ x xs, p = x :: xs := by
      cases p with
      | nil => exact absurd rfl hpne
      | cons x xs => exact ⟨x, xs, rfl⟩
    refine ⟨?_, ancestors_chain _, ancestors_pairwise _,
      nodup_of_pairwise_length_lt (ancestors_pairwise _),
      ancestors_ne_nil _ (List.cons_ne_nil x xs), ?_⟩
    · rw [ancestors_head _ (List.cons_ne_nil x xs)]
      constructor
      · intro h
        injection h with h
        exact ((lt_irrefl _) (h ▸ parent_length_lt x xs)).elim
      · intro h
        exact Bool.noConfusion (h.symm.trans hdirf)
    · intro l hl
      rw [ancestors_getLast _ (List.cons_ne_nil x xs)] at hl
      injection hl with hl
      rw [← hl]
      rfl

/-- Concrete filesystem used by witnesses: a root directory, two nested
directories, and one nonempty and one empty regular file. -/
def FSW : FS :=
  { dirs := [[], ["a"], ["a", "b"]],
    files := [(["a", "f.txt"], { size := 3, mtime := 0 }),
              (["a", "z.txt"], { size := 0, mtime := 0 })] }

/-- Witness for C5 at a concrete filesystem and path. -/
theorem walk_parents_spec_witness :
    FSW.isDir [] = true
    ∧ (walk_parents FSW ["a", "b"]).Nodup
    ∧ walk_parents FSW ["a", "b"] ≠ [] := by
  obtain ⟨_, _, _, h4, h5, _⟩ := walk_parents_spec FSW ["a", "b"] (by decide)
  exact ⟨by decide, h4, h5⟩

/-- C10: `find_file_in_parents` returns the join of the first (nearest)
walked ancestor with the file name for which that join is an existing
regular file; a successful return always names an existing regular file,
and when no walked ancestor contains the file it raises `RuntimeError`
instead of returning a sentinel. -/
theorem find_file_in_parents_spec (fs : FS) (mf : FPath) (fn : String) :
    (∀ q, find_file_in_parents fs mf fn = Except.ok q → fs.isFile q = true)
    ∧ ((∀ d ∈ walk_parents fs mf, fs.isFile (d ++ [fn]) = false) →
        find_file_in_parents fs mf fn = Except.error "RuntimeError")
    ∧ (∀ q, find_file_in_parents fs mf fn = Except.ok q →
        ∃ l1 l2 d, walk_parents fs mf = l1 ++ d :: l2 ∧ q = d ++ [fn]
          ∧ fs.isFile (d ++ [fn]) = true
          ∧ (∀ d2 ∈ l1, fs.isFile (d2 ++ [fn]) = false)) := by
  refine ⟨?_, ?_, ?_⟩
  · intro q h
    cases hf : List.find? (fun pd => fs.isFile (pd ++ [fn])) (walk_parents fs mf) with
    | none => rw [find_file_in_parents_eq_err fs mf fn hf] at h; exact Except.noConfusion h
    | some d =>
      rw [find_file_in_parents_eq_ok fs mf fn d hf] at h
      injection h with h
      rw [← h]
      have hp := List.find?_some hf
      simpa using hp
  · intro hall
    refine find_file_in_parents_eq_err fs mf fn (List.find?_eq_none.mpr ?_)
    intro d hd
    simp [hall d hd]
  · intro q h
    cases hf : List.find? (fun pd => fs.isFile (pd ++ [fn])) (walk_parents fs mf) with
    | none => rw [find_file_in_parents_eq_err fs mf fn hf] at h; exact Except.noConfusion h
    | some d =>
      rw [find_file_in_parents_eq_ok fs mf fn d hf] at h
      injection h with h
      obtain ⟨l1, l2, hsplit, hfail, hd⟩ := decomp_of_find?_eq_some _ _ _ hf
      exact ⟨l1, l2, d, hsplit, h.symm, hd, fun d2 hd2 => hfail d2 hd2⟩

/-- Witness for C10: the module file sits under `/a/b`, and `f.txt`
exists in `/a`, so the nearest hit is `/a/f.txt`. -/
theorem find_file_in_parents_spec_witness :
    find_file_in_parents FSW ["a", "b", "mod.py"] "f.txt" = Except.ok ["a", "f.txt"]
    ∧ FSW.isFile ["a", "f.txt"] = true := by
  have h : find_file_in_parents FSW ["a", "b", "mod.py"] "f.txt" =
      Except.ok ["a", "f.txt"] := by rfl
  exact ⟨h, (find_file_in_parents_spec FSW ["a", "b", "mod.py"] "f.txt").1 _ h⟩

/-- C7: `rm_file` treats a missing path as success and leaves the state
unchanged; on an existing regular file it succeeds and the file is gone
afterwards (directories untouched); a deletion failure other than
absence (here: the path is a directory) propagates as an error. -/
theorem rm_file_spec (fs : FS) (p : FPath) :
    (fs.isFile p = false → fs.isDir p = false → rm_file fs p = Except.ok fs)
    ∧ (fs.isFile p = true → ∃ fs2, rm_file fs p = Except.ok fs2
        ∧ fs2.isFile p = false ∧ fs2.dirs = fs.dirs)
    ∧ (fs.isFile p = false → fs.isDir p = true →
        rm_file fs p = Except.error "IsADirectoryError") := by
  refine ⟨?_, ?_, ?_⟩
  · intro h1 h2
    simp [rm_file, h1, h2]
  · intro h1
    refine ⟨fs.removeFile p, by simp [rm_file, h1], ?_, removeFile_dirs fs p⟩
    simp [FS.isFile, getFile_removeFile_self]
  · intro h1 h2
    simp [rm_file, h1, h2]

/-- Witness for C7: deleting a missing path succeeds and deleting an
existing file removes it. -/
theorem rm_file_spec_witness :
    rm_file FSW ["nope"] = Except.ok FSW
    ∧ ∃ fs2, rm_file FSW ["a", "f.txt"] = Except.ok fs2 ∧ fs2.isFile ["a", "f.txt"] = false := by
  obtain ⟨h1, h2, _⟩ := rm_file_spec FSW ["nope"]
  obtain ⟨fs2, hok, hgone, _⟩ := (rm_file_spec FSW ["a", "f.txt"]).2.1 (by decide)
  exact ⟨h1 (by decide) (by decide), fs2, hok, hgone⟩

/-- C8: `file_exists` is true exactly for a non-empty string naming an
existing regular file of size strictly greater than zero; in particular
it is false for the empty string, for a path naming no file, and for an
existing zero-byte file. -/
theorem file_exists_spec (fs : FS) (s : String) :
    file_exists fs s = true ↔
      s ≠ "" ∧ ∃ info, fs.getFile (PyPath.parsePath s) = some info ∧ 0 < info.size := by
  cases hg : fs.getFile (PyPath.parsePath s) with
  | none => simp [file_exists, FS.isFile, hg]
  | some info => simp [file_exists, FS.isFile, hg, and_assoc]

/-- C6 counterexample: `/a` is an existing directory and its parent (the
root) exists, yet `touch` on it raises (`open(path, "a")` fails with
`IsADirectoryError`), so "calling touch twice raises no error for every
path whose parent directory exists" fails when the path itself is a
directory. -/
theorem touch_dir_counterexample :
    FSW.isDir (PyPath.parent ["a"]) = true
    ∧ FSW.isDir ["a"] = true
    ∧ touch FSW 0 ["a"] = Except.error "IsADirectoryError" :=
  ⟨by decide, by decide, by rfl⟩

/-- C6 (amended): for every path whose parent directory exists and which
is not itself a directory, touching twice raises no error; the first
call creates an empty file when none existed and otherwise preserves the
stored content (its size), and the second call leaves the file size
unchanged — only the modification time is updated. -/
theorem touch_twice_spec (fs : FS) (now1 now2 : Nat) (p : FPath)
    (hpar : fs.isDir (PyPath.parent p) = true) (hdir : fs.isDir p = false) :
    ∃ fs1 fs2, touch fs now1 p = Except.ok fs1 ∧ touch fs1 now2 p = Except.ok fs2
      ∧ (fs.getFile p = none → fs1.getFile p = some { size := 0, mtime := now1 })
      ∧ (∀ info, fs.getFile p = some info →
          fs1.getFile p = some { size := info.size, mtime := now1 })
      ∧ (fs2.getFile p).map FileInfo.size = (fs1.getFile p).map FileInfo.size := by
  cases hg : fs.getFile p with
  | some info =>
    refine ⟨fs.setFile p { info with mtime := now1 },
      (fs.setFile p { info with mtime := now1 }).setFile p
        { size := info.size, mtime := now2 }, ?_, ?_, ?_, ?_, ?_⟩
    · simp [touch, hdir, hg]
    · simp [touch, setFile_isDir, hdir, getFile_setFile_self]
    · intro h
      exact Option.noConfusion h
    · intro info2 h
      injection h with h
      rw [← h]
      exact getFile_setFile_self fs p { info with mtime := now1 }
    · simp [getFile_setFile_self]
  | none =>
    refine ⟨fs.setFile p { size := 0, mtime := now1 },
      (fs.setFile p { size := 0, mtime := now1 }).setFile p
        { size := 0, mtime := now2 }, ?_, ?_, ?_, ?_, ?_⟩
    · simp [touch, hdir, hg, hpar]
    · simp [touch, setFile_isDir, hdir, getFile_setFile_self]
    · intro _
      exact getFile_setFile_self fs p { size := 0, mtime := now1 }
    · intro info h
      exact Option.noConfusion h
    · simp [getFile_setFile_self]

/-- Witness for the amended C6: touching a fresh path under `/a` twice
succeeds and leaves an empty file. -/
theorem touch_twice_spec_witness :
    ∃ fs1 fs2, touch FSW 1 ["a", "new.txt"] = Except.ok fs1
      ∧ touch fs1 2 ["a", "new.txt"] = Except.ok fs2
      ∧ fs1.getFile ["a", "new.txt"] = some { size := 0, mtime := 1 } := by
  obtain ⟨fs1, fs2, h1, h2, h3, _, _⟩ :=
    touch_twice_spec FSW 1 2 ["a", "new.txt"] (by decide) (by decide)
  exact ⟨fs1, fs2, h1, h2, h3 (by rfl)⟩

/-- C2: `user_files_dir` is memoized for the process lifetime: after the
first call has filled the `functools.cache` cell, a later call — under
any environment, platform, and filesystem — returns the same path, does
not touch the filesystem, and leaves the cell unchanged. -/
theorem user_files_dir_memoized (cfg1 cfg2 : Config) (fs fs2 : FS) :
    (user_files_dir_call (user_files_dir_call none cfg1 fs).cache cfg2
        (user_files_dir_call none cfg1 fs).fs).path
      = (user_files_dir_call none cfg1 fs).path
    ∧ (user_files_dir_call (user_files_dir_call none cfg1 fs).cache cfg2
        (user_files_dir_call none cfg1 fs).fs).fs
      = (user_files_dir_call none cfg1 fs).fs
    ∧ (user_files_dir_call (user_files_dir_call none cfg1 fs).cache cfg2
        (user_files_dir_call none cfg1 fs).fs).cache
      = (user_files_dir_call none cfg1 fs).cache
    ∧ (∀ p, user_files_dir_call (some p) cfg2 fs2
        = { path := p, fs := fs2, cache := some p }) :=
  ⟨rfl, rfl, rfl, fun _ => rfl⟩

/-- C1: when `AJT_USER_FILES_DIR` is set non-empty, `user_files_dir`
expands a leading home shorthand in its value, creates the named
directory with all missing parents, and returns that path; the only
filesystem effect is that creation, and the outcome is the same for
every platform string and module location and regardless of
`AJT_USE_REPO_USER_FILES` (whose value lives in the untouched remainder
of the environment). -/
theorem user_files_dir_override_spec (cfg : Config) (fs : FS) (s : String)
    (hset : cfg.env.get "AJT_USER_FILES_DIR" = some s) (hne : s ≠ "") :
    (user_files_dir_impl cfg fs).1 = expanduser cfg s
    ∧ (user_files_dir_impl cfg fs).2 = fs.mkdirParents (expanduser cfg s)
    ∧ ((user_files_dir_impl cfg fs).2).isDir (expanduser cfg s) = true
    ∧ (PyPath.strStartsWith s "~/" = true →
        (user_files_dir_impl cfg fs).1 = cfg.home ++ PyPath.parsePath (s.drop 2))
    ∧ (∀ plat mf, user_files_dir_impl
        { cfg with sys_platform := plat, module_file := mf } fs
          = user_files_dir_impl cfg fs) := by
  have ht : truthy (cfg.env.get "AJT_USER_FILES_DIR") = some s := by
    rw [hset]
    simp [truthy, hne]
  have himpl : user_files_dir_impl cfg fs = (expanduser cfg s, fs.mkdirParents (expanduser cfg s)) := by
    unfold user_files_dir_impl
    rw [ht]
  have hsne : (s == "~") = false → PyPath.strStartsWith s "~/" = true →
      expanduser cfg s = cfg.home ++ PyPath.parsePath (s.drop 2) := by
    intro h1 h2
    simp [expanduser, h1, h2]
  refine ⟨by rw [himpl], by rw [himpl], ?_, ?_, ?_⟩
  · rw [himpl]
    exact mkdirParents_isDir_self fs (expanduser cfg s)
  · intro h
    rw [himpl]
    refine hsne ?_ h
    cases hh : s == "~" with
    | false => rfl
    | true =>
      exfalso
      have h3 : s = "~" := by simpa using hh
      rw [h3] at h
      exact absurd h (by decide)
  · intro plat mf
    have ht2 : truthy (({ cfg with sys_platform := plat, module_file := mf } : Config).env.get
        "AJT_USER_FILES_DIR") = some s := ht
    have himpl2 : user_files_dir_impl { cfg with sys_platform := plat, module_file := mf } fs
        = (expanduser { cfg with sys_platform := plat, module_file := mf } s,
           fs.mkdirParents (expanduser { cfg with sys_platform := plat, module_file := mf } s)) := by
      unfold user_files_dir_impl
      rw [ht2]
    rw [himpl, himpl2]
    rfl

/-- Concrete configuration taking the explicit-override branch on a
non-Linux platform string. -/
def CFG1 : Config :=
  { env := { vars := [("AJT_USE_REPO_USER_FILES", "1"),
                      ("AJT_USER_FILES_DIR", "/tmp/custom")] },
    sys_platform := "win32",
    home := ["home", "u"],
    module_file := ["a", "b", "mod.py"] }

/-- Witness for C1: with `AJT_USER_FILES_DIR=/tmp/custom` the result is
`/tmp/custom` and that directory exists afterwards, although the
platform string is Windows and the legacy flag is set. -/
theorem user_files_dir_override_witness :
    CFG1.env.get "AJT_USER_FILES_DIR" = some "/tmp/custom"
    ∧ CFG1.env.get "AJT_USE_REPO_USER_FILES" = some "1"
    ∧ (user_files_dir_impl CFG1 FSW).1 = ["tmp", "custom"]
    ∧ ((user_files_dir_impl CFG1 FSW).2).isDir ["tmp", "custom"] = true := by
  obtain ⟨h1, _, h3, _, _⟩ :=
    user_files_dir_override_spec CFG1 FSW "/tmp/custom" (by rfl) (by decide)
  have he : expanduser CFG1 "/tmp/custom" = ["tmp", "custom"] := by rfl
  exact ⟨by rfl, by rfl, h1.trans he, he ▸ h3⟩

/-- C3: with no explicit override and `AJT_USE_REPO_USER_FILES=1`, the
platform-default directory is created first (and keeps existing even
when overridden), then the ancestors of the module file are walked and
the first one holding a directory literally named `user_files` wins; if
none does, the platform default is returned. -/
theorem user_files_dir_repo_spec (cfg : Config) (fs : FS) (p : FPath) (fs1 : FS)
    (hover : cfg.env.get "AJT_USER_FILES_DIR" = none
      ∨ cfg.env.get "AJT_USER_FILES_DIR" = some "")
    (hrepo : cfg.env.get "AJT_USE_REPO_USER_FILES" = some "1")
    (hp : p = _platform_data_home cfg THIS_ADDON_MODULE)
    (hfs1 : fs1 = fs.mkdirParents p) :
    (user_files_dir_impl cfg fs).2 = fs1
    ∧ fs1.isDir p = true
    ∧ ((∀ d ∈ walk_parents fs1 cfg.module_file, fs1.isDir (d ++ ["user_files"]) = false) →
        (user_files_dir_impl cfg fs).1 = p)
    ∧ (∀ l1 l2 d, walk_parents fs1 cfg.module_file = l1 ++ d :: l2 →
        fs1.isDir (d ++ ["user_files"]) = true →
        (∀ d2 ∈ l1, fs1.isDir (d2 ++ ["user_files"]) = false) →
        (user_files_dir_impl cfg fs).1 = d ++ ["user_files"]) := by
  have ht : truthy (cfg.env.get "AJT_USER_FILES_DIR") = none := by
    rcases hover with h | h <;> simp [truthy, h]
  have hrepo2 : (cfg.env.get "AJT_USE_REPO_USER_FILES" == some "1") = true := by
    rw [hrepo]
    rfl
  subst hfs1
  subst hp
  have hbody : user_files_dir_impl cfg fs =
      match (walk_parents (fs.mkdirParents (_platform_data_home cfg THIS_ADDON_MODULE))
          cfg.module_file).find?
          (fun pd => (fs.mkdirParents (_platform_data_home cfg THIS_ADDON_MODULE)).isDir
            (pd ++ ["user_files"])) with
      | some pd => (pd ++ ["user_files"],
          fs.mkdirParents (_platform_data_home cfg THIS_ADDON_MODULE))
      | none => (_platform_data_home cfg THIS_ADDON_MODULE,
          fs.mkdirParents (_platform_data_home cfg THIS_ADDON_MODULE)) := by
    unfold user_files_dir_impl
    simp only [ht, hrepo2, if_true]
  refine ⟨?_, mkdirParents_isDir_self fs _, ?_, ?_⟩
  · rw [hbody]
    cases (walk_parents (fs.mkdirParents (_platform_data_home cfg THIS_ADDON_MODULE))
        cfg.module_file).find?
        (fun pd => (fs.mkdirParents (_platform_data_home cfg THIS_ADDON_MODULE)).isDir
          (pd ++ ["user_files"])) <;> rfl
  · intro hall
    rw [hbody]
    rw [List.find?_eq_none.mpr (fun d hd => by simp [hall d hd])]
  · intro l1 l2 d hsplit hd hfail
    rw [hbody, hsplit]
    rw [find?_eq_some_of_decomp _ l1 l2 d (fun x hx => hfail x hx) hd]

/-- Concrete configuration and filesystem for the legacy-fallback
branch: the module file lives in `/repo/japanese/helpers` and
`/repo/user_files` exists. -/
def CFG3 : Config :=
  { env := { vars := [("AJT_USE_REPO_USER_FILES", "1"), ("XDG_DATA_HOME", "/tmp/xdg")] },
    sys_platform := "linux",
    home := ["home", "u"],
    module_file := ["repo", "japanese", "helpers", "file_ops.py"] }

/-- Filesystem for the C3 witness. -/
def FS3 : FS :=
  { dirs := [[], ["repo"], ["repo", "user_files"], ["repo", "japanese"],
             ["repo", "japanese", "helpers"]],
    files := [] }

/-- Witness for C3: the walk over `/repo/japanese/helpers/file_ops.py`
finds `/repo/user_files`, which overrides the created platform default
`/tmp/xdg/anki-addons/japanese`. -/
theorem user_files_dir_repo_witness :
    (user_files_dir_impl CFG3 FS3).1 = ["repo", "user_files"]
    ∧ ((user_files_dir_impl CFG3 FS3).2).isDir
        ["tmp", "xdg", "anki-addons", "japanese"] = true := by
  obtain ⟨h1, h2, _, h4⟩ := user_files_dir_repo_spec CFG3 FS3
    ["tmp", "xdg", "anki-addons", "japanese"]
    (FS3.mkdirParents ["tmp", "xdg", "anki-addons", "japanese"])
    (Or.inl rfl) rfl (by rfl) rfl
  refine ⟨?_, ?_⟩
  · exact h4 [["repo", "japanese", "helpers"], ["repo", "japanese"]] [[]] ["repo"]
      (by decide) (by decide) (by decide)
  · rw [h1]
    exact h2

/-- Linux configuration in which `XDG_STATE_HOME` is set (to the empty
string) while `XDG_DATA_HOME` is set to `/tmp/xdg`. -/
def CFG4 : Config :=
  { env := { vars := [("XDG_STATE_HOME", ""), ("XDG_DATA_HOME", "/tmp/xdg")] },
    sys_platform := "linux",
    home := ["home", "u"],
    module_file := ["mod.py"] }

/-- C4 counterexample: `XDG_STATE_HOME` is the first SET value among the
three base candidates, yet the result is not built from it — the code
skips variables that are set but empty and uses `XDG_DATA_HOME`
instead, so "the first set value" is not the base that is used. -/
theorem user_files_dir_linux_counterexample :
    CFG4.env.get "XDG_STATE_HOME" = some ""
    ∧ PyPath.strStartsWith CFG4.sys_platform "linux" = true
    ∧ CFG4.env.get "AJT_USER_FILES_DIR" = none
    ∧ CFG4.env.get "AJT_USE_REPO_USER_FILES" = none
    ∧ (user_files_dir_impl CFG4 FSW).1
        ≠ PyPath.parsePath "" ++ ["anki-addons", THIS_ADDON_MODULE]
    ∧ (user_files_dir_impl CFG4 FSW).1 = ["tmp", "xdg", "anki-addons", THIS_ADDON_MODULE] :=
  ⟨rfl, by decide, rfl, rfl, by decide, by decide⟩

/-- C4 (amended): on a Linux platform with no override and without the
legacy flag, the result joins the base — the first value among
`XDG_STATE_HOME`, `XDG_DATA_HOME` that is set AND non-empty, else the
default `~/.local/share` — with `anki-addons` and the add-on name, and
the returned directory exists on disk afterwards (created with parents
as the only filesystem effect). -/
theorem user_files_dir_linux_spec (cfg : Config) (fs : FS)
    (hlinux : PyPath.strStartsWith cfg.sys_platform "linux" = true)
    (hover : cfg.env.get "AJT_USER_FILES_DIR" = none
      ∨ cfg.env.get "AJT_USER_FILES_DIR" = some "")
    (hrepo : ¬ cfg.env.get "AJT_USE_REPO_USER_FILES" = some "1") :
    ((user_files_dir_impl cfg fs).2).isDir ((user_files_dir_impl cfg fs).1) = true
    ∧ (user_files_dir_impl cfg fs).2 = fs.mkdirParents ((user_files_dir_impl cfg fs).1)
    ∧ (∀ s, cfg.env.get "XDG_STATE_HOME" = some s → s ≠ "" →
        (user_files_dir_impl cfg fs).1
          = PyPath.parsePath s ++ ["anki-addons", THIS_ADDON_MODULE])
    ∧ (truthy (cfg.env.get "XDG_STATE_HOME") = none →
        ∀ s, cfg.env.get "XDG_DATA_HOME" = some s → s ≠ "" →
        (user_files_dir_impl cfg fs).1
          = PyPath.parsePath s ++ ["anki-addons", THIS_ADDON_MODULE])
    ∧ (truthy (cfg.env.get "XDG_STATE_HOME") = none →
        truthy (cfg.env.get "XDG_DATA_HOME") = none →
        (user_files_dir_impl cfg fs).1
          = PyPath.parsePath (PyPath.pathToString (cfg.home ++ [".local", "share"]))
            ++ ["anki-addons", THIS_ADDON_MODULE]) := by
  have ht : truthy (cfg.env.get "AJT_USER_FILES_DIR") = none := by
    rcases hover with h | h <;> simp [truthy, h]
  have hrepo2 : (cfg.env.get "AJT_USE_REPO_USER_FILES" == some "1") = false := by
    rw [beq_eq_false_iff_ne]
    exact hrepo
  have hbody : user_files_dir_impl cfg fs
      = (_platform_data_home cfg THIS_ADDON_MODULE,
         fs.mkdirParents (_platform_data_home cfg THIS_ADDON_MODULE)) := by
    unfold user_files_dir_impl
    simp only [ht, hrepo2, Bool.false_eq_true, if_false]
  have hplat : _platform_data_home cfg THIS_ADDON_MODULE
      = PyPath.parsePath (pyOr (cfg.env.get "XDG_STATE_HOME")
          (pyOr (cfg.env.get "XDG_DATA_HOME")
            (PyPath.pathToString (cfg.home ++ [".local", "share"]))))
        ++ ["anki-addons", THIS_ADDON_MODULE] := by
    simp [_platform_data_home, hlinux]
  refine ⟨?_, by rw [hbody], ?_, ?_, ?_⟩
  · rw [hbody]
    exact mkdirParents_isDir_self fs _
  · intro s hs hsne
    rw [hbody]
    simp only
    rw [hplat, pyOr_of_truthy_some _ s _ (by rw [hs]; exact truthy_some s hsne)]
  · intro hst s hs hsne
    rw [hbody]
    simp only
    rw [hplat, pyOr_of_truthy_none _ _ hst,
      pyOr_of_truthy_some _ s _ (by rw [hs]; exact truthy_some s hsne)]
  · intro hst hsd
    rw [hbody]
    simp only
    rw [hplat, pyOr_of_truthy_none _ _ hst, pyOr_of_truthy_none _ _ hsd]

/-- Linux configuration matching the spec example: only `XDG_DATA_HOME`
is set, to `/tmp/xdg`. -/
def CFG4b : Config :=
  { env := { vars := [("XDG_DATA_HOME", "/tmp/xdg")] },
    sys_platform := "linux",
    home := ["home", "u"],
    module_file := ["mod.py"] }

/-- Witness for the amended C4: with `XDG_DATA_HOME=/tmp/xdg` the result
is `/tmp/xdg/anki-addons/japanese` and it exists afterwards. -/
theorem user_files_dir_linux_witness :
    (user_files_dir_impl CFG4b FSW).1 = ["tmp", "xdg", "anki-addons", THIS_ADDON_MODULE]
    ∧ ((user_files_dir_impl CFG4b FSW).2).isDir ((user_files_dir_impl CFG4b FSW).1) = true := by
  obtain ⟨h1, _, _, h4, _⟩ :=
    user_files_dir_linux_spec CFG4b FSW (by decide) (Or.inl rfl) (by decide)
  exact ⟨(h4 rfl "/tmp/xdg" rfl (by decide)).trans (by decide), h1⟩

/-- C9: `open_file` picks exactly one of three strategies in priority
order: a terminal (from `TERMINAL`, non-empty) running a file manager
(`FILE` if set non-empty, else a discovered `lf`) on the path, spawned
without a shell in a new session; else a discovered `xdg-open` on the
`file://`-prefixed path, spawned the same way; else the Qt URL opener
inside the `no_bundled_libs` scope.  Each branch yields one action and
no return value beyond it. -/
theorem open_file_spec (env : Env) (fe : String → Option String) (path : String) :
    (∀ t f, truthy (env.get "TERMINAL") = some t → truthy (env.get "FILE") = some f →
        open_file env fe path = OpenAction.popen [t, "-e", f, path] false true)
    ∧ (∀ t l, truthy (env.get "TERMINAL") = some t → truthy (env.get "FILE") = none →
        truthy (fe "lf") = some l →
        open_file env fe path = OpenAction.popen [t, "-e", l, path] false true)
    ∧ (∀ o, (truthy (env.get "TERMINAL") = none
          ∨ (truthy (env.get "FILE") = none ∧ truthy (fe "lf") = none)) →
        truthy (fe "xdg-open") = some o →
        open_file env fe path = OpenAction.popen [o, "file://" ++ path] false true)
    ∧ ((truthy (env.get "TERMINAL") = none
          ∨ (truthy (env.get "FILE") = none ∧ truthy (fe "lf") = none)) →
        truthy (fe "xdg-open") = none →
        open_file env fe path = OpenAction.qdesktopOpenUrlNoBundledLibs path) := by
  refine ⟨?_, ?_, ?_, ?_⟩
  · intro t f hT hF
    have hf2 : truthy (some f) = some f := truthy_of_truthy _ _ hF
    simp [open_file, hT, hF, hf2]
  · intro t l hT hF hl
    simp [open_file, hT, hF, hl]
  · intro o hfail ho
    rcases hfail with hT | ⟨hF, hlf⟩
    · cases h2 : truthy (match truthy (env.get "FILE") with
          | some f => some f
          | none => fe "lf") <;> simp [open_file, hT, h2, ho]
    · cases hT2 : truthy (env.get "TERMINAL") <;> simp [open_file, hT2, hF, hlf, ho]
  · intro hfail ho
    rcases hfail with hT | ⟨hF, hlf⟩
    · cases h2 : truthy (match truthy (env.get "FILE") with
          | some f => some f
          | none => fe "lf") <;> simp [open_file, hT, h2, ho]
    · cases hT2 : truthy (env.get "TERMINAL") <;> simp [open_file, hT2, hF, hlf, ho]

/-- Executable-discovery stub for the C9 witness: `lf` and `xdg-open`
are on the system path. -/
def FE9 : String → Option String :=
  fun n => if n == "lf" then some "/usr/bin/lf"
           else if n == "xdg-open" then some "/usr/bin/xdg-open"
           else none

/-- Witness for C9: with `TERMINAL=st` and no `FILE`, the discovered
`lf` runs inside the terminal; with neither variable set, `xdg-open` is
used on the `file://` URL. -/
theorem open_file_spec_witness :
    open_file { vars := [("TERMINAL", "st")] } FE9 "/tmp/x"
      = OpenAction.popen ["st", "-e", "/usr/bin/lf", "/tmp/x"] false true
    ∧ open_file { vars := [] } FE9 "/tmp/x"
      = OpenAction.popen ["/usr/bin/xdg-open", "file:///tmp/x"] false true := by
  refine ⟨?_, ?_⟩
  · exact (open_file_spec { vars := [("TERMINAL", "st")] } FE9 "/tmp/x").2.1
      "st" "/usr/bin/lf" rfl rfl rfl
  · exact ((open_file_spec { vars := [] } FE9 "/tmp/x").2.2.1
      "/usr/bin/xdg-open" (Or.inl rfl) rfl).trans (by rfl)

end FileOps
